import Mathlib

/-!
Verification of the lasso controller framework specification against its
source. Shallow embedding of the shared cache factory
(`pkg/cache/sharedinformerfactory.go`), the resource client
(`pkg/client/client.go`, `pkg/client/options.go`), the SQLite-backed store
(`pkg/cache/sql/store/store.go`), the metrics package (`pkg/metrics`) and
the work-queue dispatch discipline.

Go maps keyed by GVK are embedded as association lists with unique keys;
Go errors as `Except String`; identity of informers ("the same instance")
as a numeric id handed out by a counter.
-/

namespace Lasso

/-- schema.GroupVersionKind. -/
structure GVK where
  group : String
  version : String
  kind : String
  deriving DecidableEq, Repr

/-- schema.GroupVersionResource. -/
structure GVR where
  group : String
  version : String
  resource : String
  deriving DecidableEq, Repr

/-- gvr.GroupVersion().WithKind(kind): the GVK with the GVR's group and
version and the given kind. -/
def GVR.withKind (gvr : GVR) (kind : String) : GVK :=
  { group := gvr.group, version := gvr.version, kind := kind }

/-- Association-list lookup (embedding of Go map read `m[k]`). -/
def alookup {α β : Type} [DecidableEq α] : List (α × β) → α → Option β
  | [], _ => none
  | (a, b) :: rest, k => if a = k then some b else alookup rest k

/-- An informer created by the shared cache factory. The numeric `id` is
fresh per creation and stands for the instance's identity; `resync` and
`namespace` record the per-GVK options resolved at creation
(sharedinformerfactory.go `ForResourceKind`, the `NewCache` call). -/
structure InformerModel where
  id : Nat
  resync : Nat
  nspace : String
  deriving DecidableEq, Repr

/-- Immutable configuration of a sharedCacheFactory (fields set by
`NewSharedCachedFactory` from `SharedCacheFactoryOptions`). -/
structure CacheFactoryConfig where
  defaultResync : Nat
  defaultNamespace : String
  customResync : List (GVK × Nat)
  customNamespaces : List (GVK × String)

/-- Mutable state of a sharedCacheFactory: the `caches` and
`startedCaches` maps, the `started` flag, the healthcheck's `ctx != nil`
flag, plus instrumentation of the effects the claims speak about: `runs`
records one entry (the informer id) per `go informer.Run(...)` launched,
and `metricSamplerCount` counts `startMetricsCollection` launches. -/
structure CacheFactoryState where
  caches : List (GVK × InformerModel)
  startedCaches : List GVK
  nextInformerId : Nat
  runs : List Nat
  started : Bool
  metricSamplerCount : Nat
  healthStarted : Bool
  deriving DecidableEq, Repr

/-- The factory state right after `NewSharedCachedFactory`. -/
def initialCacheFactoryState : CacheFactoryState :=
  { caches := [], startedCaches := [], nextInformerId := 0, runs := [],
    started := false, metricSamplerCount := 0, healthStarted := false }

/-- The collaborating client.SharedClientFactory, abstracted at its
interface: discovery in both directions, `NewObjects`, and the outcome of
the healthcheck's `ForResource` call for the namespaces resource. -/
structure ClientFactoryModel where
  resourceForGVK : GVK → Except String (GVR × Bool)
  gvkForResource : GVR → Except String GVK
  newObjects : GVK → Except String Unit
  forResourceNamespaces : Except String Unit

/-- The gvk-resolution prelude of `sharedCacheFactory.ForResourceKind`:
if `kind` is empty the GVK comes from discovery
(`GVKForResource`), otherwise it is `gvr.GroupVersion().WithKind(kind)`. -/
def resolveGVK (cf : ClientFactoryModel) (gvr : GVR) (kind : String) :
    Except String GVK :=
  if kind = "" then cf.gvkForResource gvr else .ok (gvr.withKind kind)

/-- sharedCacheFactory.ForResourceKind (sharedinformerfactory.go:204-260).
Resolves the GVK, then under the factory mutex: returns the cached
informer if present; otherwise resolves per-GVK options, calls
`NewObjects` (which can fail), creates a new cache and records it.
The lock serializes calls, so consecutive calls model concurrent ones. -/
def forResourceKind (cf : ClientFactoryModel) (cfg : CacheFactoryConfig)
    (s : CacheFactoryState) (gvr : GVR) (kind : String) (_namespaced : Bool) :
    Except String (InformerModel × CacheFactoryState) := do
  let gvk ← resolveGVK cf gvr kind
  match alookup s.caches gvk with
  | some informer => return (informer, s)
  | none =>
    let resyncPeriod := (alookup cfg.customResync gvk).getD cfg.defaultResync
    let nspace := (alookup cfg.customNamespaces gvk).getD cfg.defaultNamespace
    let _ ← cf.newObjects gvk
    let informer : InformerModel :=
      { id := s.nextInformerId, resync := resyncPeriod, nspace := nspace }
    return (informer,
      { s with caches := s.caches ++ [(gvk, informer)],
               nextInformerId := s.nextInformerId + 1 })

/-- sharedCacheFactory.ForResource: `ForResourceKind(gvr, "", namespaced)`. -/
def forResource (cf : ClientFactoryModel) (cfg : CacheFactoryConfig)
    (s : CacheFactoryState) (gvr : GVR) (namespaced : Bool) :
    Except String (InformerModel × CacheFactoryState) :=
  forResourceKind cf cfg s gvr "" namespaced

/-- sharedCacheFactory.ForKind: resolves GVR and namespaced via
`ResourceForGVK`, then `ForResourceKind(gvr, gvk.Kind, namespaced)`. -/
def forKind (cf : ClientFactoryModel) (cfg : CacheFactoryConfig)
    (s : CacheFactoryState) (gvk : GVK) :
    Except String (InformerModel × CacheFactoryState) := do
  let (gvr, namespaced) ← cf.resourceForGVK gvk
  forResourceKind cf cfg s gvr gvk.kind namespaced

/-- sharedCacheFactory.StartGVK (sharedinformerfactory.go:100-115): under
the mutex, a GVK without a cache is a silent no-op; otherwise the informer
is run and marked started unless it already was. Always returns nil. -/
def startGVK (s : CacheFactoryState) (gvk : GVK) :
    Except String CacheFactoryState :=
  match alookup s.caches gvk with
  | none => .ok s
  | some informer =>
    if gvk ∈ s.startedCaches then .ok s
    else .ok { s with runs := s.runs ++ [informer.id],
                      startedCaches := gvk :: s.startedCaches }

/-- healthcheck.start (health.go): if already started (`h.ctx != nil`)
return nil immediately; otherwise obtain the namespaces client from the
shared client factory (which can fail) and launch the probe loop. -/
def healthcheckStart (cf : ClientFactoryModel) (s : CacheFactoryState) :
    Except String CacheFactoryState :=
  if s.healthStarted then .ok s
  else do
    let _ ← cf.forResourceNamespaces
    return { s with healthStarted := true }

/-- The `for informerType, informer := range f.caches` loop of
`sharedCacheFactory.Start`: run and mark every not-yet-started informer.
Go map iteration order is unspecified; the association-list order is one
admissible order. -/
def startAllCaches (entries : List (GVK × InformerModel))
    (s : CacheFactoryState) : CacheFactoryState :=
  entries.foldl
    (fun acc e =>
      if e.1 ∈ acc.startedCaches then acc
      else { acc with runs := acc.runs ++ [e.2.id],
                      startedCaches := e.1 :: acc.startedCaches })
    s

/-- sharedCacheFactory.Start (sharedinformerfactory.go:142-164): start the
healthcheck (propagating its error), run every not-yet-started informer,
and on the first Start launch the periodic cache-size metric sampler
(`startMetricsCollection`) and set `started`. -/
def startFactory (cf : ClientFactoryModel) (s : CacheFactoryState) :
    Except String CacheFactoryState := do
  let s1 ← healthcheckStart cf s
  let s2 := startAllCaches s1.caches s1
  if s2.started then return s2
  else return { s2 with metricSamplerCount := s2.metricSamplerCount + 1,
                        started := true }

/-- sharedCacheFactory.WaitForCacheSync (sharedinformerfactory.go:166-186).
Under the mutex it collects the informers whose GVK is marked in
`startedCaches`; it then waits on each and returns one map entry per
collected informer. `sync i` abstracts `cache.WaitForCacheSync(ctx.Done(),
informer.HasSynced)` for the informer with id `i`: true iff HasSynced went
true before ctx was cancelled. -/
def waitForCacheSync (sync : Nat → Bool) (s : CacheFactoryState) :
    List (GVK × Bool) :=
  (s.caches.filter (fun e => e.1 ∈ s.startedCaches)).map
    (fun e => (e.1, sync e.2.id))

/-! Concrete fixtures used by witnesses and counterexamples. -/

/-- A concrete GVK. -/
def wGvk : GVK := { group := "apps", version := "v1", kind := "Deployment" }

/-- The corresponding concrete GVR. -/
def wGvr : GVR := { group := "apps", version := "v1", resource := "deployments" }

/-- A concrete client factory model mapping `wGvk` to `wGvr` and back. -/
def wClientFactory : ClientFactoryModel :=
  { resourceForGVK := fun gvk =>
      if gvk = wGvk then .ok (wGvr, true) else .error "not mapped",
    gvkForResource := fun gvr =>
      if gvr = wGvr then .ok wGvk else .error "not mapped",
    newObjects := fun _ => .ok (),
    forResourceNamespaces := .ok () }

/-- A concrete factory configuration with no per-GVK overrides. -/
def wConfig : CacheFactoryConfig :=
  { defaultResync := 0, defaultNamespace := "", customResync := [],
    customNamespaces := [] }

/-- The informer the first creation on a fresh factory yields. -/
def wInformer : InformerModel := { id := 0, resync := 0, nspace := "" }

/-- Factory state after creating the informer for `wGvk` (not started). -/
def wStateCreated : CacheFactoryState :=
  { initialCacheFactoryState with
      caches := [(wGvk, wInformer)], nextInformerId := 1 }

/-- `wStateCreated` after `StartGVK` marked `wGvk` started. -/
def wStateStartedGVK : CacheFactoryState :=
  { wStateCreated with runs := [0], startedCaches := [wGvk] }

/-- `wStateCreated` after a full `Start`. -/
def wStateStarted : CacheFactoryState :=
  { wStateCreated with
      runs := [0]
      startedCaches := [wGvk]
      started := true
      metricSamplerCount := 1
      healthStarted := true }

/-- The state `StartGVK` produces when it finds informer `inf` for `gvk`
not yet started: the informer is run once and the GVK marked started. -/
def startGVKMark (s : CacheFactoryState) (gvk : GVK) (inf : InformerModel) :
    CacheFactoryState :=
  { s with runs := s.runs ++ [inf.id], startedCaches := gvk :: s.startedCaches }

/-! ## Resource client: impersonation options (pkg/client/options.go) -/

/-- http.Header: ordered list of (canonical key, values). `SetHeader` keeps
at most one entry per key, so keys are unique. -/
abbrev Headers := List (String × List String)

/-- Header read: the values stored under `k`, if the key is present. -/
def getHeader (h : Headers) (k : String) : Option (List String) :=
  (h.find? (fun p => p.1 == k)).map (fun p => p.2)

/-- rest.Request.SetHeader(key, values...): deletes the key, then adds
each value. With no values the key ends up absent; otherwise it maps to
exactly the given values. -/
def setHeader (h : Headers) (k : String) (vs : List String) : Headers :=
  h.filter (fun p => !(p.1 == k)) ++ (if vs.isEmpty then [] else [(k, vs)])

/-- rest.ImpersonationConfig. `extra` is the Extra map as an association
list (Go map iteration order is unspecified; the list order is one
admissible order). -/
structure ImpersonationConfig where
  userName : String
  uid : String
  groups : List String
  extra : List (String × List String)
  deriving DecidableEq, Repr

/-- transport.ImpersonateUserHeader. -/
def impersonateUserHeader : String := "Impersonate-User"

/-- transport.ImpersonateUIDHeader. -/
def impersonateUIDHeader : String := "Impersonate-Uid"

/-- transport.ImpersonateGroupHeader. -/
def impersonateGroupHeader : String := "Impersonate-Group"

/-- transport.ImpersonateUserExtraHeaderPrefix. -/
def impersonateExtraHeaderBase : String := "Impersonate-Extra-"

/-- UTF-8 encoding of a code point (utf8.AppendRune), as byte values. -/
def utf8Bytes (n : Nat) : List Nat :=
  if n < 0x80 then [n]
  else if n < 0x800 then [0xC0 + n / 64, 0x80 + n % 64]
  else if n < 0x10000 then [0xE0 + n / 4096, 0x80 + n / 64 % 64, 0x80 + n % 64]
  else [0xF0 + n / 262144, 0x80 + n / 4096 % 64, 0x80 + n / 64 % 64,
        0x80 + n % 64]

/-- Upper-case hexadecimal digit. -/
def hexDigitUpper (n : Nat) : Char :=
  "0123456789ABCDEF".toList.getD n (Char.ofNat 48)

/-- One `%%%02X`-formatted byte (options.go:106). -/
def percentEncodeByte (b : Nat) : String :=
  String.mk [Char.ofNat 37, hexDigitUpper (b / 16), hexDigitUpper (b % 16)]

/-- The per-rune body of sanitizeHeaderKey (options.go:85-107): valid
non-alphanumeric token bytes pass through, digits pass through, letters
are lower-cased, everything else is percent-encoded byte-wise. Lean's
`Char.isDigit`/`Char.isAlpha`/`Char.toLower` are the ASCII fragment of
Go's unicode classifiers; the claims do not depend on non-ASCII letters. -/
def sanitizeRune (r : Char) : String :=
  if r ∈ (['!', '#', '$', '&', Char.ofNat 39, '*', '+', '-', '.', '^', '_',
      Char.ofNat 96, '|', '~'] : List Char) then String.singleton r
  else if r.isDigit then String.singleton r
  else if r.isAlpha then String.singleton r.toLower
  else String.join ((utf8Bytes r.toNat).map percentEncodeByte)

/-- sanitizeHeaderKey (options.go:83-109). -/
def sanitizeHeaderKey (s : String) : String :=
  String.join (s.toList.map sanitizeRune)

/-- applyImpersonation (options.go:72-81): the user header is set
unconditionally, the UID header only when non-empty, the group header via
SetHeader with the groups as values, and one `Impersonate-Extra-` header
per Extra entry with a sanitized key. -/
def applyImpersonation (imp : ImpersonationConfig) (req : Headers) : Headers :=
  let req1 := setHeader req impersonateUserHeader [imp.userName]
  let req2 :=
    if imp.uid ≠ "" then setHeader req1 impersonateUIDHeader [imp.uid]
    else req1
  let req3 := setHeader req2 impersonateGroupHeader imp.groups
  imp.extra.foldl
    (fun r p =>
      setHeader r (impersonateExtraHeaderBase ++ sanitizeHeaderKey p.1) p.2)
    req3

/-- Options.apply (options.go:62-69), restricted to the header effects:
impersonation is applied only when an impersonation config is supplied.
(`WarningHandler` does not touch headers.) -/
def applyOptions (impersonate : Option ImpersonationConfig) (req : Headers) :
    Headers :=
  match impersonate with
  | some imp => applyImpersonation imp req
  | none => req

/-- A concrete impersonation config with empty UID and absent Extra. -/
def wImp : ImpersonationConfig :=
  { userName := "alice", uid := "", groups := ["g1", "g2"], extra := [] }

/-! ## Resource client: default timeout (pkg/client/client.go) -/

/-- A Go context, reduced to the earliest absolute time at which its Done
channel fires: `none` if it never fires. -/
structure GoContext where
  doneAt : Option Nat
  deriving DecidableEq, Repr

/-- context.WithTimeout at absolute time `now`: the child is done at
`now + timeout`, or earlier if the parent is done earlier. -/
def withTimeout (ctx : GoContext) (now timeout : Nat) : GoContext :=
  { doneAt := some (match ctx.doneAt with
      | none => now + timeout
      | some t => min t (now + timeout)) }

/-- The timeout configuration of a lasso Client (`Client.timeout`, set
from `defaultTimeout` in NewClient). -/
structure ClientTimeoutModel where
  timeout : Nat
  deriving DecidableEq, Repr

/-- Client.setupCtx (client.go:107-113): a zero timeout returns the
caller's context unchanged; otherwise the context is wrapped with the
client's default timeout. -/
def setupCtx (c : ClientTimeoutModel) (ctx : GoContext) (now : Nat) :
    GoContext :=
  if c.timeout = 0 then ctx else withTimeout ctx now c.timeout

/-- The client's operations. -/
inductive ClientOp where
  | get
  | list
  | watch
  | create
  | update
  | updateStatus
  | delete
  | deleteCollection
  | patch
  deriving DecidableEq, Repr

/-- The context each operation hands to the request (`req.Do(ctx)` /
`req.Watch(ctx)`). Every operation body calls `setupCtx` on the caller's
context (client.go:121,140,186,206,231,253,270,296) except Watch
(client.go:162-178), which passes the caller's context through. -/
def effectiveCtx (c : ClientTimeoutModel) (op : ClientOp) (ctx : GoContext)
    (now : Nat) : GoContext :=
  match op with
  | .watch => ctx
  | _ => setupCtx c ctx now

/-! ## SQLite-backed store (pkg/cache/sql/store/store.go)

The store's tables are embedded as a transaction-visible state: the main
object table (key → object) plus an abstract auxiliary state `A` for the
labels and `_fields` tables. All writes inside `upsert`, `deleteByKey` and
`replaceByKey` go through the transaction client `txC`; the committed
state changes only at `txC.Commit()`, which the embedding renders as
returning the final transaction state; an early error return leaves the
committed state untouched. The registered after-upsert/after-delete hooks
in this repository (ListOptionIndexer.afterUpsert/afterDelete) execute
statements only against the auxiliary `_fields` tables, so hooks act on
`A`. -/

/-- The store's tables as visible inside one transaction. -/
structure TxState (Obj A : Type) where
  main : List (String × Obj)
  aux : A

/-- Remove every row with the given key (`DELETE FROM t WHERE key = ?`). -/
def eraseKey {Obj : Type} (l : List (String × Obj)) (k : String) :
    List (String × Obj) :=
  l.filter (fun p => !(p.1 == k))

/-- `REPLACE INTO t(key, ...) VALUES (?, ...)`: replace any row with the
key, keeping keys unique. -/
def assocUpsert {Obj : Type} (l : List (String × Obj)) (k : String)
    (v : Obj) : List (String × Obj) :=
  eraseKey l k ++ [(k, v)]

/-- The data-relevant fields of Store plus its DBClient collaborator:
the key function, the fallible row write/delete (gob encoding and
encryption can fail), the labels upsert, and the registered hooks. -/
structure StoreModel (Obj A : Type) where
  keyFunc : Obj → Except String String
  dbUpsert : String → Obj → Except String Unit
  dbDelete : String → Except String Unit
  upsertLabels : String → Obj → A → Except String A
  afterUpsert : List (String → Obj → A → Except String A)
  afterDelete : List (String → A → Except String A)

/-- runAfterUpsert (store.go:379-387): run the registered hooks in order,
stopping at the first error. -/
def runHooksUpsert {Obj A : Type}
    (hooks : List (String → Obj → A → Except String A)) (key : String)
    (obj : Obj) (a : A) : Except String A :=
  match hooks with
  | [] => .ok a
  | f :: rest => do
    let a1 ← f key obj a
    runHooksUpsert rest key obj a1

/-- runAfterDelete (store.go:396-404). -/
def runHooksDelete {A : Type}
    (hooks : List (String → A → Except String A)) (key : String) (a : A) :
    Except String A :=
  match hooks with
  | [] => .ok a
  | f :: rest => do
    let a1 ← f key a
    runHooksDelete rest key a1

/-- Store.upsert (store.go:142-164): in one transaction, write the row,
upsert the labels, run the after-upsert hooks, commit. -/
def storeUpsert {Obj A : Type} (sm : StoreModel Obj A) (st : TxState Obj A)
    (key : String) (obj : Obj) : Except String (TxState Obj A) := do
  let _ ← sm.dbUpsert key obj
  let aux1 ← sm.upsertLabels key obj st.aux
  let aux2 ← runHooksUpsert sm.afterUpsert key obj aux1
  return { main := assocUpsert st.main key obj, aux := aux2 }

/-- Store.Add (store.go:211-219): derive the key, then upsert. -/
def storeAdd {Obj A : Type} (sm : StoreModel Obj A) (st : TxState Obj A)
    (obj : Obj) : Except String (TxState Obj A) := do
  let key ← sm.keyFunc obj
  storeUpsert sm st key obj

/-- Store.Update (store.go:238-240): `return s.Add(obj)`. -/
def storeUpdate {Obj A : Type} (sm : StoreModel Obj A) (st : TxState Obj A)
    (obj : Obj) : Except String (TxState Obj A) :=
  storeAdd sm st obj

/-- The objectMap loop of Store.Replace (store.go:294-302): derive each
key, last write per key wins. -/
def buildObjectMap {Obj A : Type} (sm : StoreModel Obj A)
    (objects : List Obj) : Except String (List (String × Obj)) :=
  objects.foldlM
    (fun m o => do
      let key ← sm.keyFunc o
      return assocUpsert m key o)
    []

/-- One deletion step of replaceByKey (store.go:324-333): delete the row
and run the after-delete hooks, all inside the transaction. -/
def replaceDeleteStep {Obj A : Type} (sm : StoreModel Obj A)
    (acc : TxState Obj A) (key : String) : Except String (TxState Obj A) := do
  let _ ← sm.dbDelete key
  let aux1 ← runHooksDelete sm.afterDelete key acc.aux
  return { main := eraseKey acc.main key, aux := aux1 }

/-- One upsert step of replaceByKey (store.go:335-348): write the row,
upsert labels, run the after-upsert hooks, all inside the transaction. -/
def replaceUpsertStep {Obj A : Type} (sm : StoreModel Obj A)
    (acc : TxState Obj A) (p : String × Obj) :
    Except String (TxState Obj A) := do
  let _ ← sm.dbUpsert p.1 p.2
  let aux1 ← sm.upsertLabels p.1 p.2 acc.aux
  let aux2 ← runHooksUpsert sm.afterUpsert p.1 p.2 aux1
  return { main := assocUpsert acc.main p.1 p.2, aux := aux2 }

/-- Store.replaceByKey (store.go:307-351): in one transaction, read the
current keys, delete each of them (with hooks), upsert every given
object (with labels and hooks), commit. -/
def replaceByKey {Obj A : Type} (sm : StoreModel Obj A) (st : TxState Obj A)
    (objects : List (String × Obj)) : Except String (TxState Obj A) := do
  let keys := st.main.map Prod.fst
  let st1 ← keys.foldlM (replaceDeleteStep sm) st
  let st2 ← objects.foldlM (replaceUpsertStep sm) st1
  return st2

/-- Store.Replace (store.go:293-304). -/
def storeReplace {Obj A : Type} (sm : StoreModel Obj A) (st : TxState Obj A)
    (objects : List Obj) : Except String (TxState Obj A) := do
  let objectMap ← buildObjectMap sm objects
  replaceByKey sm st objectMap

/-- The committed store across a Replace call: the transaction commits on
success; on any error the transaction is never committed and the
committed state is unchanged. -/
def runReplace {Obj A : Type} (sm : StoreModel Obj A) (committed : TxState Obj A)
    (objects : List Obj) : TxState Obj A :=
  match storeReplace sm committed objects with
  | .ok st => st
  | .error _ => committed

/-- A concrete store over string objects keyed by themselves, with no
hooks and infallible db operations. -/
def wStore : StoreModel String Unit :=
  { keyFunc := fun o => .ok o,
    dbUpsert := fun _ _ => .ok (),
    dbDelete := fun _ => .ok (),
    upsertLabels := fun _ _ a => .ok a,
    afterUpsert := [],
    afterDelete := [] }

/-- A concrete store whose key function always fails. -/
def wStoreFail : StoreModel String Unit :=
  { keyFunc := fun _ => .error "keyError",
    dbUpsert := fun _ _ => .ok (),
    dbDelete := fun _ => .ok (),
    upsertLabels := fun _ _ a => .ok a,
    afterUpsert := [],
    afterDelete := [] }

/-! ## Metrics (pkg/metrics/metrics.go, pkg/metrics/register.go) -/

/-- Set-or-insert on a labelled metric vector. -/
def mapSet {α β : Type} [DecidableEq α] (l : List (α × β)) (k : α) (v : β) :
    List (α × β) :=
  l.filter (fun p => !(decide (p.1 = k))) ++ [(k, v)]

/-- GaugeVec.Delete: remove the entry with the given labels. -/
def mapDel {α β : Type} [DecidableEq α] (l : List (α × β)) (k : α) :
    List (α × β) :=
  l.filter (fun p => !(decide (p.1 = k)))

/-- State of the three lasso metric vectors: the handler-execution
counter (labels controller_name, handler_name, has_error), the
cached-objects gauge (labels ctx, group, version, kind) and the
reconcile-time histogram. `V` is the opaque float64 sample type; samples
are stored, never computed with. -/
structure MetricsState (V : Type) where
  execCount : List ((String × String × String) × Nat)
  cachedObjects : List ((String × String × String × String) × V)
  reconcileObs : List ((String × String × String) × List V)

/-- strconv.FormatBool. -/
def formatBool (b : Bool) : String := if b then "true" else "false"

/-- register.go init: `prometheusMetrics = true` exactly when the
environment variable CATTLE_PROMETHEUS_METRICS equals "true". -/
def prometheusMetricsFromEnv (env : String) : Bool := env == "true"

/-- IncTotalHandlerExecutions (metrics.go:67-77): guarded by the
process-wide flag; when enabled, create-or-increment the labelled
counter. -/
def IncTotalHandlerExecutions {V : Type} (prometheusMetrics : Bool)
    (controllerName handlerName : String) (hasError : Bool)
    (s : MetricsState V) : MetricsState V :=
  if prometheusMetrics then
    let lbl := (controllerName, handlerName, formatBool hasError)
    let n := (alookup s.execCount lbl).getD 0
    { s with execCount := mapSet s.execCount lbl (n + 1) }
  else s

/-- IncTotalCachedObjects (metrics.go:80-91): guarded by the flag; when
enabled, set the labelled gauge to the given value. -/
def IncTotalCachedObjects {V : Type} (prometheusMetrics : Bool)
    (ctxID group version kind : String) (val : V) (s : MetricsState V) :
    MetricsState V :=
  if prometheusMetrics then
    let lbl := (ctxID, group, version, kind)
    { s with cachedObjects := mapSet s.cachedObjects lbl val }
  else s

/-- DelTotalCachedObjects (metrics.go:94-105): guarded by the flag; when
enabled, delete the labelled gauge entry. -/
def DelTotalCachedObjects {V : Type} (prometheusMetrics : Bool)
    (ctxID group version kind : String) (s : MetricsState V) :
    MetricsState V :=
  if prometheusMetrics then
    { s with cachedObjects := mapDel s.cachedObjects (ctxID, group, version, kind) }
  else s

/-- ReportReconcileTime (metrics.go:107-117): guarded by the flag; when
enabled, record the observation in the labelled histogram. -/
def ReportReconcileTime {V : Type} (prometheusMetrics : Bool)
    (controllerName handlerName : String) (hasError : Bool) (observeTime : V)
    (s : MetricsState V) : MetricsState V :=
  if prometheusMetrics then
    let lbl := (controllerName, handlerName, formatBool hasError)
    let obs := (alookup s.reconcileObs lbl).getD []
    { s with reconcileObs := mapSet s.reconcileObs lbl (obs ++ [observeTime]) }
  else s

/-! ## Work-queue dispatch (spec sections 4.5, 4.6, 4.7)

The shared controller, shared handler and work queue are not among the
provided sources (pkg/controller holds only their tests and the work
queue lives in the client-go dependency), so the claims about them are
modelled from the spec. -/

/-- Modelled from the spec: the state of one shared controller's
dispatch machinery — the work queue of section 4.5 (ready FIFO, dirty
marks, processing set, shutdown flag) and the worker pool of section 4.6.
`workers[w] = some k` means worker `w` is between `queue.Get` and
`queue.Done` for key `k`, i.e. it is executing the shared handler chain
of section 4.7 for `k`. -/
structure QueueState where
  queue : List String
  dirty : List String
  processing : List String
  workers : List (Option String)
  shutdown : Bool
  deriving DecidableEq, Repr

/-- Modelled from the spec: a freshly started controller with `n` idle
workers and an empty queue. -/
def initQueue (n : Nat) : QueueState :=
  { queue := [], dirty := [], processing := [], workers := List.replicate n none,
    shutdown := false }

/-- Modelled from the spec: `Add(key)` — "If present or being processed,
mark dirty; else enqueue immediately"; after `ShutDown`, adds are
rejected. A key held by a worker is marked dirty for re-enqueue at
`Done`; a key already queued is a no-op; otherwise the key is appended to
the ready FIFO. -/
def addKey (s : QueueState) (k : String) : QueueState :=
  if s.shutdown then s
  else if k ∈ s.processing then
    { s with dirty := if k ∈ s.dirty then s.dirty else k :: s.dirty }
  else if k ∈ s.queue then s
  else { s with queue := s.queue ++ [k] }

/-- Modelled from the spec: the state change of `Get()` when worker `w`
receives the head key `k`: the key leaves the ready FIFO and is marked
processing. -/
def getKey (s : QueueState) (w : Nat) (k : String) (rest : List String) :
    QueueState :=
  { s with queue := rest, processing := k :: s.processing,
           workers := s.workers.set w (some k) }

/-- Modelled from the spec: `Done(key)` — "Release processing slot; if
marked dirty while held, re-enqueue". -/
def doneKey (s : QueueState) (w : Nat) (k : String) : QueueState :=
  if k ∈ s.dirty then
    { s with workers := s.workers.set w none,
             processing := s.processing.filter (fun x => !(x == k)),
             dirty := s.dirty.filter (fun x => !(x == k)),
             queue := s.queue ++ [k] }
  else
    { s with workers := s.workers.set w none,
             processing := s.processing.filter (fun x => !(x == k)) }

/-- Modelled from the spec: the interleaving of queue operations by
producers (event handlers, Enqueue*) and the worker loops. `get` fires
only for an idle worker and a non-empty FIFO; `done` only for the worker
holding the key. -/
inductive QueueStep : QueueState → QueueState → Prop
  | add (s : QueueState) (k : String) : QueueStep s (addKey s k)
  | get (s : QueueState) (w : Nat) (k : String) (rest : List String)
      (hw : s.workers.get? w = some none) (hq : s.queue = k :: rest) :
      QueueStep s (getKey s w k rest)
  | done (s : QueueState) (w : Nat) (k : String)
      (hw : s.workers.get? w = some (some k)) : QueueStep s (doneKey s w k)
  | shutDown (s : QueueState) : QueueStep s { s with shutdown := true }

/-- The inductive invariant for per-key serial dispatch: every held key
is marked processing, queued keys are never processing, the ready FIFO is
duplicate-free, and no key is held by two workers. -/
def QueueInv (s : QueueState) : Prop :=
  (∀ w k, s.workers.get? w = some (some k) → k ∈ s.processing) ∧
  (∀ k ∈ s.queue, k ∉ s.processing) ∧
  s.queue.Nodup ∧
  (∀ w1 w2 k, s.workers.get? w1 = some (some k) →
    s.workers.get? w2 = some (some k) → w1 = w2)

/-- A reachable state in which worker 0 holds key "a". -/
def wQueueState : QueueState :=
  { queue := [], dirty := [], processing := ["a"], workers := [some "a"],
    shutdown := false }

/-! ## Supporting lemmas -/

theorem exceptBind_ok {ε α β : Type} (a : α) (f : α → Except ε β) :
    (Except.ok a >>= f) = f a := rfl

theorem exceptBind_error {ε α β : Type} (e : ε) (f : α → Except ε β) :
    ((Except.error e : Except ε α) >>= f) = Except.error e := rfl

theorem exceptPure {ε α : Type} (a : α) :
    (pure a : Except ε α) = Except.ok a := rfl

theorem alookup_append_of_none {α β : Type} [DecidableEq α]
    (l1 l2 : List (α × β)) (k : α) (h : alookup l1 k = none) :
    alookup (l1 ++ l2) k = alookup l2 k := by
  induction l1 with
  | nil => rfl
  | cons hd tl ih =>
    by_cases hk : hd.1 = k
    · simp [alookup, hk] at h
    · simpa [alookup, hk] using ih (by simpa [alookup, hk] using h)

theorem alookup_singleton {α β : Type} [DecidableEq α] (k : α) (v : β) :
    alookup [(k, v)] k = some v := by
  simp [alookup]

/-- `startAllCaches` only touches `runs` and `startedCaches`. -/
theorem startAllCaches_frame (entries : List (GVK × InformerModel))
    (s : CacheFactoryState) :
    (startAllCaches entries s).caches = s.caches ∧
    (startAllCaches entries s).nextInformerId = s.nextInformerId ∧
    (startAllCaches entries s).started = s.started ∧
    (startAllCaches entries s).metricSamplerCount = s.metricSamplerCount ∧
    (startAllCaches entries s).healthStarted = s.healthStarted := by
  induction entries generalizing s with
  | nil => exact ⟨rfl, rfl, rfl, rfl, rfl⟩
  | cons hd tl ih =>
    by_cases hmem : hd.1 ∈ s.startedCaches <;>
      simpa [startAllCaches, hmem] using ih _

/-- `startAllCaches` never unmarks a started GVK. -/
theorem startAllCaches_mono (entries : List (GVK × InformerModel))
    (s : CacheFactoryState) (gvk : GVK) (h : gvk ∈ s.startedCaches) :
    gvk ∈ (startAllCaches entries s).startedCaches := by
  induction entries generalizing s with
  | nil => exact h
  | cons hd tl ih =>
    by_cases hmem : hd.1 ∈ s.startedCaches
    · simpa [startAllCaches, hmem] using ih _ h
    · simp only [startAllCaches, List.foldl_cons, hmem, if_false]
      exact ih _ (List.mem_cons_of_mem _ h)

/-- After `startAllCaches`, every listed GVK is marked started. -/
theorem startAllCaches_marks (entries : List (GVK × InformerModel))
    (s : CacheFactoryState) (e : GVK × InformerModel) (h : e ∈ entries) :
    e.1 ∈ (startAllCaches entries s).startedCaches := by
  induction entries generalizing s with
  | nil => cases h
  | cons hd tl ih =>
    rcases List.mem_cons.mp h with heq | htl
    · subst heq
      by_cases hmem : e.1 ∈ s.startedCaches
      · simp only [startAllCaches, List.foldl_cons, hmem, if_true]
        exact startAllCaches_mono tl s e.1 hmem
      · simp only [startAllCaches, List.foldl_cons, hmem, if_false]
        exact startAllCaches_mono tl _ e.1 (List.mem_cons_self _ _)
    · by_cases hmem : hd.1 ∈ s.startedCaches <;>
        simp only [startAllCaches, List.foldl_cons, hmem, if_true, if_false] <;>
        exact ih _ htl

/-- `startAllCaches` is the identity when every listed GVK is already
started. -/
theorem startAllCaches_eq_self (entries : List (GVK × InformerModel))
    (s : CacheFactoryState) (h : ∀ e ∈ entries, e.1 ∈ s.startedCaches) :
    startAllCaches entries s = s := by
  induction entries with
  | nil => rfl
  | cons hd tl ih =>
    have hmem : hd.1 ∈ s.startedCaches := h hd (List.mem_cons_self _ _)
    simp only [startAllCaches, List.foldl_cons, hmem, if_true]
    exact ih fun e he => h e (List.mem_cons_of_mem _ he)

/-! ## Claim theorems -/

/-- Claim C3: two calls of ForResourceKind (or of ForKind/ForResource,
which normalize to it) that resolve to the same GVK return the identical
informer instance; the second lookup finds the entry created by the first
under the factory mutex and creates nothing new (the state is unchanged). -/
theorem forResourceKind_dedup
    (cf : ClientFactoryModel) (cfg : CacheFactoryConfig)
    (s s1 : CacheFactoryState) (gvr1 gvr2 : GVR) (kind1 kind2 : String)
    (ns1 ns2 : Bool) (inf : InformerModel) (gvk : GVK)
    (hres1 : resolveGVK cf gvr1 kind1 = .ok gvk)
    (hres2 : resolveGVK cf gvr2 kind2 = .ok gvk)
    (hcall1 : forResourceKind cf cfg s gvr1 kind1 ns1 = .ok (inf, s1)) :
    forResourceKind cf cfg s1 gvr2 kind2 ns2 = .ok (inf, s1) := by
  have hlook : alookup s1.caches gvk = some inf := by
    unfold forResourceKind at hcall1
    rw [hres1] at hcall1
    simp only [exceptBind_ok] at hcall1
    cases hcase : alookup s.caches gvk with
    | some i =>
      rw [hcase] at hcall1
      simp only [exceptPure, Except.ok.injEq, Prod.mk.injEq] at hcall1
      obtain ⟨hi, hs⟩ := hcall1
      subst hi; subst hs
      exact hcase
    | none =>
      rw [hcase] at hcall1
      cases hobj : cf.newObjects gvk with
      | error e =>
        rw [hobj] at hcall1
        simp only [exceptBind_error] at hcall1
        exact absurd hcall1 (by simp)
      | ok u =>
        rw [hobj] at hcall1
        simp only [exceptBind_ok, exceptPure, Except.ok.injEq,
          Prod.mk.injEq] at hcall1
        obtain ⟨hi, hs⟩ := hcall1
        rw [← hs, ← hi]
        dsimp only
        rw [alookup_append_of_none _ _ _ hcase, alookup_singleton]
  unfold forResourceKind
  rw [hres2]
  simp only [exceptBind_ok]
  rw [hlook]
  rfl

/-- Claim C3 witness: on a fresh factory, a ForResourceKind call with an
explicit kind creates the informer; a second call for the same resource
with empty kind (a ForResource call) resolves to the same GVK and returns
the identical informer with the state unchanged. -/
theorem forResourceKind_dedup_witness :
    forResourceKind wClientFactory wConfig initialCacheFactoryState
      wGvr "Deployment" true = .ok (wInformer, wStateCreated) ∧
    forResourceKind wClientFactory wConfig wStateCreated
      wGvr "" true = .ok (wInformer, wStateCreated) := by
  constructor
  · rfl
  · exact forResourceKind_dedup wClientFactory wConfig
      initialCacheFactoryState wStateCreated wGvr wGvr "Deployment" ""
      true true wInformer wGvk rfl rfl rfl

/-- Claim C4: Start is idempotent. If a Start succeeds, a second Start on
the resulting state succeeds and changes nothing: no already-started
informer is run again (`runs` unchanged, so each informer's Run is
launched at most once across repeated Starts) and the periodic cache-size
metric sampler is not relaunched; the sampler is launched exactly once,
on the first Start of a factory that was not already started. -/
theorem startFactory_idempotent (cf : ClientFactoryModel)
    (s s1 : CacheFactoryState) (hcall : startFactory cf s = .ok s1) :
    startFactory cf s1 = .ok s1 ∧
    s1.metricSamplerCount =
      s.metricSamplerCount + (if s.started then 0 else 1) := by
  unfold startFactory at hcall
  cases hhc : healthcheckStart cf s with
  | error e =>
    rw [hhc] at hcall
    simp only [exceptBind_error] at hcall
    exact absurd hcall (by simp)
  | ok t =>
    rw [hhc] at hcall
    simp only [exceptBind_ok] at hcall
    have hth : t.healthStarted = true ∧
        t.metricSamplerCount = s.metricSamplerCount ∧
        t.started = s.started ∧ t.caches = s.caches := by
      unfold healthcheckStart at hhc
      by_cases hs : s.healthStarted = true
      · rw [if_pos hs] at hhc
        simp only [Except.ok.injEq] at hhc
        subst hhc
        exact ⟨hs, rfl, rfl, rfl⟩
      · rw [if_neg hs] at hhc
        cases hns : cf.forResourceNamespaces with
        | error e =>
          rw [hns] at hhc
          simp only [exceptBind_error] at hhc
          exact absurd hhc (by simp)
        | ok u =>
          rw [hns] at hhc
          simp only [exceptBind_ok, exceptPure, Except.ok.injEq] at hhc
          subst hhc
          exact ⟨rfl, rfl, rfl, rfl⟩
    obtain ⟨hfc, hfn, hfs, hfm, hfh⟩ := startAllCaches_frame t.caches t
    have hfacts : s1.healthStarted = true ∧ s1.started = true ∧
        (∀ e ∈ s1.caches, e.1 ∈ s1.startedCaches) ∧
        s1.metricSamplerCount =
          s.metricSamplerCount + (if s.started then 0 else 1) := by
      by_cases hst : (startAllCaches t.caches t).started = true
      · rw [if_pos hst] at hcall
        simp only [exceptPure, Except.ok.injEq] at hcall
        have hsstarted : s.started = true := by rw [← hth.2.2.1, ← hfs]; exact hst
        refine ⟨?_, ?_, ?_, ?_⟩
        · rw [← hcall, hfh]; exact hth.1
        · rw [← hcall]; exact hst
        · intro e he
          rw [← hcall] at he ⊢
          exact startAllCaches_marks t.caches t e (by rwa [hfc] at he)
        · rw [← hcall, hfm, hth.2.1, hsstarted]
          simp
      · rw [if_neg hst] at hcall
        simp only [exceptPure, Except.ok.injEq] at hcall
        have hsstarted : s.started = false := by
          rw [← hth.2.2.1, ← hfs]
          exact Bool.eq_false_iff.mpr hst
        refine ⟨?_, ?_, ?_, ?_⟩
        · rw [← hcall]; dsimp only; rw [hfh]; exact hth.1
        · rw [← hcall]
        · intro e he
          rw [← hcall] at he ⊢
          dsimp only at he ⊢
          exact startAllCaches_marks t.caches t e (by rwa [hfc] at he)
        · rw [← hcall]; dsimp only
          rw [hfm, hth.2.1, hsstarted]
          simp
    obtain ⟨hh1, hst1, hall1, hm1⟩ := hfacts
    refine ⟨?_, hm1⟩
    have hhc2 : healthcheckStart cf s1 = .ok s1 := by
      unfold healthcheckStart
      rw [hh1]
      simp
    unfold startFactory
    rw [hhc2]
    simp only [exceptBind_ok]
    rw [startAllCaches_eq_self s1.caches s1 hall1, hst1]
    simp [exceptPure]

/-- Claim C4 witness: starting a fresh factory holding one unstarted
informer succeeds, a second Start returns the same state unchanged, and
the metric sampler was launched exactly once. -/
theorem startFactory_idempotent_witness :
    startFactory wClientFactory wStateCreated = .ok wStateStarted ∧
    startFactory wClientFactory wStateStarted = .ok wStateStarted ∧
    wStateStarted.metricSamplerCount =
      wStateCreated.metricSamplerCount + 1 := by
  have h1 : startFactory wClientFactory wStateCreated = .ok wStateStarted := by
    rfl
  have h2 := startFactory_idempotent wClientFactory wStateCreated
    wStateStarted h1
  exact ⟨h1, h2.1, by simpa using h2.2⟩

/-- Claim C10: StartGVK for a GVK with no informer returns nil and changes
nothing; for a GVK whose informer exists but is not started, it runs the
informer, marks it started, and a repeated StartGVK is a no-op, so the
informer is run exactly once. -/
theorem startGVK_spec (s : CacheFactoryState) (gvk : GVK) :
    (alookup s.caches gvk = none → startGVK s gvk = .ok s) ∧
    (∀ inf, alookup s.caches gvk = some inf → gvk ∉ s.startedCaches →
      startGVK s gvk = .ok (startGVKMark s gvk inf) ∧
      startGVK (startGVKMark s gvk inf) gvk =
        .ok (startGVKMark s gvk inf)) := by
  constructor
  · intro hnone
    unfold startGVK
    rw [hnone]
  · intro inf hsome hnst
    constructor
    · simp [startGVK, hsome, hnst, startGVKMark]
    · simp [startGVK, startGVKMark, hsome]

/-- Claim C10 witness: StartGVK on a factory with one unstarted informer
runs and marks it; a second StartGVK leaves the state unchanged; and
StartGVK for an unknown GVK changes nothing. -/
theorem startGVK_spec_witness :
    startGVK wStateCreated wGvk =
      .ok (startGVKMark wStateCreated wGvk wInformer) ∧
    startGVK (startGVKMark wStateCreated wGvk wInformer) wGvk =
      .ok (startGVKMark wStateCreated wGvk wInformer) ∧
    startGVK wStateCreated { group := "", version := "v1", kind := "Pod" } =
      .ok wStateCreated := by
  have h2 := (startGVK_spec wStateCreated wGvk).2 wInformer rfl (by decide)
  have hpod := (startGVK_spec wStateCreated
    { group := "", version := "v1", kind := "Pod" }).1 rfl
  exact ⟨h2.1, h2.2, hpod⟩

/-- Claim C2 (amended): WaitForCacheSync returns one map entry per
started informer — the GVKs present in both `caches` and `startedCaches`
— and when the factory is stopped before any informer syncs (every sync
wait returns false), every returned entry is false. Informers that are
known but never started get no entry. -/
theorem waitForCacheSync_stopped (sync : Nat → Bool) (s : CacheFactoryState)
    (hstopped : ∀ i, sync i = false) :
    waitForCacheSync sync s =
      (s.caches.filter (fun e => e.1 ∈ s.startedCaches)).map
        (fun e => (e.1, false)) := by
  unfold waitForCacheSync
  exact List.map_congr_left fun e _ => by rw [hstopped]

/-- Claim C2 witness: on a factory whose single informer is started,
WaitForCacheSync under cancellation returns exactly one entry, false. -/
theorem waitForCacheSync_stopped_witness :
    waitForCacheSync (fun _ => false) wStateStartedGVK = [(wGvk, false)] := by
  rw [waitForCacheSync_stopped (fun _ => false) wStateStartedGVK
    (fun _ => rfl)]
  rfl

/-- Claim C2 counterexample: a factory can know a GVK (its informer was
created by ForResourceKind) without having started it; WaitForCacheSync
then returns no entry at all for that GVK, so the returned map does not
have an entry for every known GVK. -/
theorem waitForCacheSync_counterexample :
    forResourceKind wClientFactory wConfig initialCacheFactoryState
      wGvr "Deployment" true = .ok (wInformer, wStateCreated) ∧
    alookup wStateCreated.caches wGvk = some wInformer ∧
    waitForCacheSync (fun _ => false) wStateCreated = [] := by
  exact ⟨rfl, rfl, rfl⟩

/-! Association-list lemmas for the store claims. -/

theorem alookup_append {Obj : Type} (l1 l2 : List (String × Obj))
    (k : String) :
    alookup (l1 ++ l2) k =
      match alookup l1 k with
      | some v => some v
      | none => alookup l2 k := by
  induction l1 with
  | nil => rfl
  | cons hd tl ih =>
    by_cases hk : hd.1 = k
    · simp [alookup, hk]
    · simp only [List.cons_append, alookup, hk, if_false]
      exact ih

theorem alookup_eraseKey_self {Obj : Type} (l : List (String × Obj))
    (k : String) : alookup (eraseKey l k) k = none := by
  induction l with
  | nil => rfl
  | cons hd tl ih =>
    by_cases hk : hd.1 = k
    · simpa [eraseKey, List.filter_cons, hk] using ih
    · have hbeq : (hd.1 == k) = false := beq_eq_false_iff_ne.mpr hk
      simp only [eraseKey, List.filter_cons, hbeq, Bool.not_false, if_true]
      simp only [alookup, hk, if_false]
      exact ih

theorem alookup_eraseKey_other {Obj : Type} (l : List (String × Obj))
    (k k' : String) (hne : k' ≠ k) :
    alookup (eraseKey l k) k' = alookup l k' := by
  induction l with
  | nil => rfl
  | cons hd tl ih =>
    by_cases hk : hd.1 = k
    · have h1 : ¬(k = k') := Ne.symm hne
      simp only [eraseKey, List.filter_cons, hk, beq_self_eq_true,
        Bool.not_true, Bool.false_eq_true, if_false, alookup, h1]
      exact ih
    · have hbeq : (hd.1 == k) = false := beq_eq_false_iff_ne.mpr hk
      simp only [eraseKey, List.filter_cons, hbeq, Bool.not_false, if_true]
      by_cases hk' : hd.1 = k'
      · simp [alookup, hk']
      · simp only [alookup, hk', if_false]
        exact ih

theorem alookup_isSome_iff_mem {Obj : Type} (l : List (String × Obj))
    (k : String) : (alookup l k).isSome ↔ k ∈ l.map Prod.fst := by
  induction l with
  | nil => simp [alookup]
  | cons hd tl ih =>
    by_cases hk : hd.1 = k
    · simp [alookup, hk]
    · simp only [alookup, hk, if_false, List.map_cons, List.mem_cons, ih]
      constructor
      · exact Or.inr
      · rintro (he | hm)
        · exact absurd he.symm hk
        · exact hm

theorem alookup_assocUpsert_isSome {Obj : Type} (l : List (String × Obj))
    (k0 k : String) (v : Obj) :
    (alookup (assocUpsert l k0 v) k).isSome ↔
      k = k0 ∨ (alookup l k).isSome := by
  unfold assocUpsert
  by_cases hk : k = k0
  · subst hk
    rw [alookup_append_of_none _ _ _ (alookup_eraseKey_self l k)]
    simp [alookup]
  · rw [alookup_append, alookup_eraseKey_other l k0 k hk]
    cases hl : alookup l k with
    | some x => simp
    | none => simp [alookup, hk, Ne.symm hk]

/-! Fold lemmas for Replace. -/

theorem exists_mem_cons_iffP {α : Type} (p : α → Prop) (a : α)
    (l : List α) : (∃ x ∈ a :: l, p x) ↔ p a ∨ ∃ x ∈ l, p x := by
  constructor
  · rintro ⟨x, hx, hp⟩
    rcases List.mem_cons.mp hx with rfl | hm
    · exact Or.inl hp
    · exact Or.inr ⟨x, hm, hp⟩
  · rintro (hp | ⟨x, hm, hp⟩)
    · exact ⟨a, List.mem_cons_self _ _, hp⟩
    · exact ⟨x, List.mem_cons_of_mem _ hm, hp⟩

theorem buildFold_keys {Obj A : Type} (sm : StoreModel Obj A)
    (objs : List Obj) (m0 m : List (String × Obj))
    (h : objs.foldlM
      (fun m o => do
        let key ← sm.keyFunc o
        return assocUpsert m key o) m0 = .ok m) (k : String) :
    (alookup m k).isSome ↔
      (∃ o ∈ objs, sm.keyFunc o = .ok k) ∨ (alookup m0 k).isSome := by
  induction objs generalizing m0 with
  | nil =>
    simp only [List.foldlM_nil, exceptPure, Except.ok.injEq] at h
    subst h
    simp
  | cons o rest ih =>
    rw [List.foldlM_cons] at h
    cases hk : sm.keyFunc o with
    | error e =>
      rw [hk] at h
      simp only [exceptBind_ok, exceptBind_error] at h
      exact absurd h (by simp)
    | ok key =>
      rw [hk] at h
      simp only [exceptBind_ok, exceptPure] at h
      rw [ih _ h, alookup_assocUpsert_isSome, exists_mem_cons_iffP, hk]
      simp only [Except.ok.injEq]
      constructor
      · rintro (hr | (hke | hm0))
        · exact Or.inl (Or.inr hr)
        · exact Or.inl (Or.inl hke.symm)
        · exact Or.inr hm0
      · rintro ((hke | hr) | hm0)
        · exact Or.inr (Or.inl hke.symm)
        · exact Or.inl hr
        · exact Or.inr (Or.inr hm0)

theorem buildObjectMap_keys {Obj A : Type} (sm : StoreModel Obj A)
    (objs : List Obj) (m : List (String × Obj))
    (h : buildObjectMap sm objs = .ok m) (k : String) :
    (alookup m k).isSome ↔ ∃ o ∈ objs, sm.keyFunc o = .ok k := by
  unfold buildObjectMap at h
  rw [buildFold_keys sm objs [] m h k]
  simp [alookup]

theorem deleteFold_main {Obj A : Type} (sm : StoreModel Obj A)
    (keys : List String) (st st1 : TxState Obj A)
    (h : keys.foldlM (replaceDeleteStep sm) st = .ok st1) :
    st1.main = keys.foldl (fun l k => eraseKey l k) st.main := by
  induction keys generalizing st with
  | nil =>
    simp only [List.foldlM_nil, exceptPure, Except.ok.injEq] at h
    rw [List.foldl_nil, h]
  | cons k rest ih =>
    rw [List.foldlM_cons] at h
    unfold replaceDeleteStep at h
    cases hd : sm.dbDelete k with
    | error e =>
      rw [hd] at h
      simp only [exceptBind_error] at h
      exact absurd h (by simp)
    | ok u =>
      rw [hd] at h
      simp only [exceptBind_ok] at h
      cases hh : runHooksDelete sm.afterDelete k st.aux with
      | error e =>
        rw [hh] at h
        simp only [exceptBind_error] at h
        exact absurd h (by simp)
      | ok a1 =>
        rw [hh] at h
        simp only [exceptBind_ok, exceptPure] at h
        rw [List.foldl_cons]
        exact ih _ h

theorem foldl_eraseKey_all {Obj : Type} (keys : List String)
    (l : List (String × Obj)) (h : ∀ p ∈ l, p.1 ∈ keys) :
    keys.foldl (fun l k => eraseKey l k) l = [] := by
  induction keys generalizing l with
  | nil =>
    cases l with
    | nil => rfl
    | cons p rest => exact absurd (h p (List.mem_cons_self _ _)) (List.not_mem_nil _)
  | cons k rest ih =>
    rw [List.foldl_cons]
    refine ih _ ?_
    intro p hp
    have hpl : p ∈ l := List.mem_of_mem_filter hp
    have hne : ¬(p.1 = k) := by simpa using List.of_mem_filter hp
    rcases List.mem_cons.mp (h p hpl) with he | hm
    · exact absurd he hne
    · exact hm

theorem upsertFold_keys {Obj A : Type} (sm : StoreModel Obj A)
    (ps : List (String × Obj)) (st st2 : TxState Obj A)
    (h : ps.foldlM (replaceUpsertStep sm) st = .ok st2) (k : String) :
    (alookup st2.main k).isSome ↔
      k ∈ ps.map Prod.fst ∨ (alookup st.main k).isSome := by
  induction ps generalizing st with
  | nil =>
    simp only [List.foldlM_nil, exceptPure, Except.ok.injEq] at h
    subst h
    simp
  | cons p rest ih =>
    rw [List.foldlM_cons] at h
    unfold replaceUpsertStep at h
    cases hdb : sm.dbUpsert p.1 p.2 with
    | error e =>
      rw [hdb] at h
      simp only [exceptBind_error] at h
      exact absurd h (by simp)
    | ok u =>
      rw [hdb] at h
      simp only [exceptBind_ok] at h
      cases hlab : sm.upsertLabels p.1 p.2 st.aux with
      | error e =>
        rw [hlab] at h
        simp only [exceptBind_error] at h
        exact absurd h (by simp)
      | ok a1 =>
        rw [hlab] at h
        simp only [exceptBind_ok] at h
        cases hhook : runHooksUpsert sm.afterUpsert p.1 p.2 a1 with
        | error e =>
          rw [hhook] at h
          simp only [exceptBind_error] at h
          exact absurd h (by simp)
        | ok a2 =>
          rw [hhook] at h
          simp only [exceptBind_ok, exceptPure] at h
          rw [ih _ h]
          dsimp only
          rw [alookup_assocUpsert_isSome]
          simp only [List.map_cons, List.mem_cons]
          tauto

/-! Header lemmas for the impersonation claim. -/

theorem find?_append {α : Type} (l1 l2 : List α) (p : α → Bool) :
    (l1 ++ l2).find? p =
      match l1.find? p with
      | some x => some x
      | none => l2.find? p := by
  induction l1 with
  | nil => rfl
  | cons hd tl ih =>
    by_cases hp : p hd
    · simp [List.find?_cons, hp]
    · simp only [List.cons_append, List.find?_cons, hp, Bool.false_eq_true,
        if_false, cond_false]
      rw [ih]

theorem find?_filterKeyNe_self (h : Headers) (k : String) :
    (h.filter (fun p => !(p.1 == k))).find? (fun p => p.1 == k) = none := by
  induction h with
  | nil => rfl
  | cons hd tl ih =>
    by_cases hk : hd.1 = k
    · simp only [List.filter_cons, hk, beq_self_eq_true, Bool.not_true,
        Bool.false_eq_true, if_false]
      exact ih
    · have hbeq : (hd.1 == k) = false := beq_eq_false_iff_ne.mpr hk
      simp only [List.filter_cons, hbeq, Bool.not_false, if_true,
        List.find?_cons, cond_false]
      exact ih

theorem find?_filterKeyNe_other (h : Headers) (k k' : String) (hne : k' ≠ k) :
    (h.filter (fun p => !(p.1 == k))).find? (fun p => p.1 == k') =
      h.find? (fun p => p.1 == k') := by
  induction h with
  | nil => rfl
  | cons hd tl ih =>
    by_cases hk : hd.1 = k
    · have h1 : (k == k') = false := beq_eq_false_iff_ne.mpr (Ne.symm hne)
      simp only [List.filter_cons, hk, beq_self_eq_true, Bool.not_true,
        Bool.false_eq_true, if_false, List.find?_cons, h1, cond_false]
      exact ih
    · have hbeq : (hd.1 == k) = false := beq_eq_false_iff_ne.mpr hk
      simp only [List.filter_cons, hbeq, Bool.not_false, if_true,
        List.find?_cons]
      cases hk' : (hd.1 == k') with
      | true => rfl
      | false => exact ih

theorem getHeader_setHeader_same (h : Headers) (k : String)
    (vs : List String) (hvs : vs ≠ []) :
    getHeader (setHeader h k vs) k = some vs := by
  unfold getHeader setHeader
  rw [if_neg (by simpa using hvs)]
  rw [find?_append, find?_filterKeyNe_self]
  simp [List.find?_cons]

theorem getHeader_setHeader_empty (h : Headers) (k : String) :
    getHeader (setHeader h k []) k = none := by
  unfold getHeader setHeader
  simp only [List.isEmpty_nil, if_true, List.append_nil]
  rw [find?_filterKeyNe_self]
  rfl

theorem getHeader_setHeader_other (h : Headers) (k k' : String)
    (vs : List String) (hne : k' ≠ k) :
    getHeader (setHeader h k vs) k' = getHeader h k' := by
  unfold getHeader setHeader
  rw [find?_append, find?_filterKeyNe_other h k k' hne]
  cases hf : h.find? (fun p => p.1 == k') with
  | some x => rfl
  | none =>
    have hkk : (k == k') = false := beq_eq_false_iff_ne.mpr (Ne.symm hne)
    by_cases hvs : vs.isEmpty <;>
      simp [hvs, List.find?_cons, hkk]

theorem getHeader_foldExtra (extra : List (String × List String))
    (r : Headers) (k : String)
    (h : ∀ p ∈ extra,
      impersonateExtraHeaderBase ++ sanitizeHeaderKey p.1 ≠ k) :
    getHeader
      (extra.foldl
        (fun r p =>
          setHeader r (impersonateExtraHeaderBase ++ sanitizeHeaderKey p.1)
            p.2)
        r) k = getHeader r k := by
  induction extra generalizing r with
  | nil => rfl
  | cons hd tl ih =>
    rw [List.foldl_cons, ih _ fun p hp => h p (List.mem_cons_of_mem _ hp)]
    exact getHeader_setHeader_other _ _ _ _
      fun he => h hd (List.mem_cons_self _ _) he.symm

/-- Any `Impersonate-Extra-`-derived key differs from every string
shorter than the shared stem. -/
theorem extraKey_ne (s t : String)
    (ht : t.length < impersonateExtraHeaderBase.length) :
    impersonateExtraHeaderBase ++ s ≠ t := by
  intro he
  have hlen := congrArg String.length he
  rw [String.length_append] at hlen
  omega

/-- Claim C5 counterexample: with an impersonation config whose UserName
is empty, applyImpersonation still sets the Impersonate-User header (to
the empty string); the claim that no impersonation header is set for an
empty UserName is false. -/
theorem applyImpersonation_counterexample :
    getHeader
      (applyImpersonation
        { userName := "", uid := "", groups := [], extra := [] } [])
      impersonateUserHeader = some [""] := by
  rfl

/-- Claim C5 (amended): on a fresh request, applyImpersonation sets the
Impersonate-User header unconditionally — to the empty string when
UserName is empty — while the other fields are omitted when empty: no UID
header for an empty UID, no Group header for empty Groups, and no
Impersonate-Extra- headers for absent Extra entries; non-empty UID,
Groups and Extra entries are set to their values. -/
theorem applyImpersonation_empty_fields (imp : ImpersonationConfig) :
    getHeader (applyImpersonation imp []) impersonateUserHeader =
      some [imp.userName] ∧
    getHeader (applyImpersonation imp []) impersonateUIDHeader =
      (if imp.uid = "" then none else some [imp.uid]) ∧
    getHeader (applyImpersonation imp []) impersonateGroupHeader =
      (if imp.groups = [] then none else some imp.groups) ∧
    (imp.extra = [] → ∀ k,
      getHeader (applyImpersonation imp []) (impersonateExtraHeaderBase ++ k)
        = none) ∧
    (∀ k vs, imp.extra = [(k, vs)] → vs ≠ [] →
      getHeader (applyImpersonation imp [])
        (impersonateExtraHeaderBase ++ sanitizeHeaderKey k) = some vs) := by
  refine ⟨?_, ?_, ?_, ?_, ?_⟩
  · simp only [applyImpersonation]
    rw [getHeader_foldExtra _ _ _ fun p _ => extraKey_ne _ _ (by decide)]
    rw [getHeader_setHeader_other _ _ _ _ (by decide)]
    by_cases huid : imp.uid = ""
    · rw [if_neg (by simp [huid])]
      exact getHeader_setHeader_same _ _ _ (by simp)
    · rw [if_pos huid]
      rw [getHeader_setHeader_other _ _ _ _ (by decide)]
      exact getHeader_setHeader_same _ _ _ (by simp)
  · simp only [applyImpersonation]
    rw [getHeader_foldExtra _ _ _ fun p _ => extraKey_ne _ _ (by decide)]
    rw [getHeader_setHeader_other _ _ _ _ (by decide)]
    by_cases huid : imp.uid = ""
    · rw [if_neg (by simp [huid]), if_pos huid]
      rw [getHeader_setHeader_other _ _ _ _ (by decide)]
      rfl
    · rw [if_pos huid, if_neg huid]
      exact getHeader_setHeader_same _ _ _ (by simp)
  · simp only [applyImpersonation]
    rw [getHeader_foldExtra _ _ _ fun p _ => extraKey_ne _ _ (by decide)]
    by_cases hg : imp.groups = []
    · rw [if_pos hg, hg]
      exact getHeader_setHeader_empty _ _
    · rw [if_neg hg]
      exact getHeader_setHeader_same _ _ _ hg
  · intro hextra k
    simp only [applyImpersonation, hextra, List.foldl_nil]
    rw [getHeader_setHeader_other _ _ _ _ (extraKey_ne _ _ (by decide))]
    by_cases huid : imp.uid = ""
    · rw [if_neg (by simp [huid])]
      rw [getHeader_setHeader_other _ _ _ _ (extraKey_ne _ _ (by decide))]
      rfl
    · rw [if_pos huid]
      rw [getHeader_setHeader_other _ _ _ _ (extraKey_ne _ _ (by decide))]
      rw [getHeader_setHeader_other _ _ _ _ (extraKey_ne _ _ (by decide))]
      rfl
  · intro k vs hextra hvs
    simp only [applyImpersonation, hextra, List.foldl_cons, List.foldl_nil]
    exact getHeader_setHeader_same _ _ _ hvs

/-- Claim C5 witness: for a config with user "alice", empty UID, two
groups and no Extra entries, the user and group headers are set and the
UID header and an extra header are absent. -/
theorem applyImpersonation_empty_fields_witness :
    getHeader (applyImpersonation wImp []) impersonateUserHeader =
      some ["alice"] ∧
    getHeader (applyImpersonation wImp []) impersonateUIDHeader = none ∧
    getHeader (applyImpersonation wImp []) impersonateGroupHeader =
      some ["g1", "g2"] ∧
    getHeader (applyImpersonation wImp []) (impersonateExtraHeaderBase ++ "k")
      = none := by
  obtain ⟨h1, h2, h3, h4, h5⟩ := applyImpersonation_empty_fields wImp
  exact ⟨h1, by simpa using h2, by simpa using h3, h4 rfl "k"⟩

/-- Claim C6 counterexample: with a non-zero default timeout, the Watch
operation does not wrap the caller's context with the timeout — it passes
it through unchanged — so the claim that the default-timeout behaviour
applies to every operation including Watch is false. -/
theorem watch_timeout_counterexample :
    effectiveCtx { timeout := 5 } ClientOp.watch { doneAt := none } 0 =
      { doneAt := none } ∧
    effectiveCtx { timeout := 5 } ClientOp.watch { doneAt := none } 0 ≠
      setupCtx { timeout := 5 } { doneAt := none } 0 := by
  exact ⟨rfl, by decide⟩

/-- Claim C6 (amended): for every operation except Watch the call's
context is wrapped with the client's default timeout when it is non-zero
and passed through unchanged when it is zero; Watch always uses the
caller's context unchanged; and for every operation, cancellation of the
caller's context terminates the request no later than the caller's
cancellation time, regardless of the default timeout. -/
theorem clientTimeout_spec (c : ClientTimeoutModel) (op : ClientOp)
    (ctx : GoContext) (now : Nat) :
    (op ≠ ClientOp.watch →
      effectiveCtx c op ctx now = setupCtx c ctx now) ∧
    (effectiveCtx c ClientOp.watch ctx now = ctx) ∧
    (c.timeout = 0 → setupCtx c ctx now = ctx) ∧
    (∀ t, ctx.doneAt = some t →
      ∃ u, (effectiveCtx c op ctx now).doneAt = some u ∧ u ≤ t) := by
  refine ⟨?_, rfl, ?_, ?_⟩
  · intro hop
    cases op <;> first | rfl | exact absurd rfl hop
  · intro h0
    unfold setupCtx
    rw [if_pos h0]
  · intro t ht
    have hcase : effectiveCtx c op ctx now = ctx ∨
        effectiveCtx c op ctx now = setupCtx c ctx now := by
      cases op <;> simp [effectiveCtx]
    rcases hcase with hc | hc
    · exact ⟨t, by rw [hc, ht], le_refl t⟩
    · rw [hc]
      unfold setupCtx
      by_cases h0 : c.timeout = 0
      · rw [if_pos h0]
        exact ⟨t, ht, le_refl t⟩
      · rw [if_neg h0]
        unfold withTimeout
        rw [ht]
        exact ⟨min t (now + c.timeout), rfl, min_le_left _ _⟩

/-- Claim C6 witness: with default timeout 3 at time 0 and a caller
context cancelled at time 10, a Get call's context is wrapped to be done
at time 3, a zero-timeout client passes the context unchanged, and the
wrapped context is done no later than the caller's cancellation. -/
theorem clientTimeout_spec_witness :
    effectiveCtx { timeout := 3 } ClientOp.get { doneAt := some 10 } 0 =
      setupCtx { timeout := 3 } { doneAt := some 10 } 0 ∧
    setupCtx { timeout := 0 } { doneAt := some 10 } 0 =
      { doneAt := some 10 } ∧
    (∃ u, (effectiveCtx { timeout := 3 } ClientOp.get { doneAt := some 10 }
      0).doneAt = some u ∧ u ≤ 10) := by
  have h := clientTimeout_spec { timeout := 3 } ClientOp.get
    { doneAt := some 10 } 0
  have h0 := clientTimeout_spec { timeout := 0 } ClientOp.get
    { doneAt := some 10 } 0
  exact ⟨h.1 (by decide), h0.2.2.1 rfl, h.2.2.2 10 rfl⟩

/-- Claim C7: Store.Replace is atomic. On success the committed store is
the transaction's final state and contains exactly the keys derived from
the given objects by the store's key function (all prior keys were
deleted and all given objects upserted, with their hooks, in one
transaction); on any failure before commit the committed store is
unchanged. -/
theorem storeReplace_atomic {Obj A : Type} (sm : StoreModel Obj A)
    (st : TxState Obj A) (objs : List Obj) :
    (∀ st', storeReplace sm st objs = .ok st' →
      runReplace sm st objs = st' ∧
      ∀ k, (alookup st'.main k).isSome ↔
        ∃ o ∈ objs, sm.keyFunc o = .ok k) ∧
    (∀ e, storeReplace sm st objs = .error e →
      runReplace sm st objs = st) := by
  constructor
  · intro st' hok
    refine ⟨by unfold runReplace; rw [hok], ?_⟩
    intro k
    unfold storeReplace at hok
    cases hbm : buildObjectMap sm objs with
    | error e =>
      rw [hbm] at hok
      simp only [exceptBind_error] at hok
      exact absurd hok (by simp)
    | ok m =>
      rw [hbm] at hok
      simp only [exceptBind_ok] at hok
      unfold replaceByKey at hok
      dsimp only at hok
      cases hdel : (st.main.map Prod.fst).foldlM (replaceDeleteStep sm) st with
      | error e =>
        rw [hdel] at hok
        simp only [exceptBind_error] at hok
        exact absurd hok (by simp)
      | ok st1 =>
        rw [hdel] at hok
        simp only [exceptBind_ok] at hok
        cases hups : m.foldlM (replaceUpsertStep sm) st1 with
        | error e =>
          rw [hups] at hok
          simp only [exceptBind_error] at hok
          exact absurd hok (by simp)
        | ok st2 =>
          rw [hups] at hok
          simp only [exceptBind_ok, exceptPure, Except.ok.injEq] at hok
          subst hok
          have h1 : st1.main = [] := by
            rw [deleteFold_main sm _ st st1 hdel]
            exact foldl_eraseKey_all _ _
              fun p hp => List.mem_map_of_mem _ hp
          rw [upsertFold_keys sm m st1 st2 hups k, h1]
          simp only [alookup, Option.isSome_none, Bool.false_eq_true,
            or_false]
          rw [← alookup_isSome_iff_mem, buildObjectMap_keys sm objs m hbm k]
  · intro e herr
    unfold runReplace
    rw [herr]

/-- Claim C7 witness: replacing the contents `old ↦ v` with objects "a"
and "b" commits a store holding exactly keys "a" and "b"; with a failing
key function the committed store is unchanged. -/
theorem storeReplace_atomic_witness :
    runReplace wStore { main := [("old", "v")], aux := () } ["a", "b"] =
      { main := [("a", "a"), ("b", "b")], aux := () } ∧
    ((alookup ([("a", "a"), ("b", "b")] : List (String × String))
        "a").isSome ↔
      ∃ o ∈ ["a", "b"], wStore.keyFunc o = .ok "a") ∧
    runReplace wStoreFail { main := [("old", "v")], aux := () } ["a"] =
      { main := [("old", "v")], aux := () } := by
  have hok := (storeReplace_atomic wStore
    { main := [("old", "v")], aux := () } ["a", "b"]).1
    { main := [("a", "a"), ("b", "b")], aux := () } rfl
  have herr := (storeReplace_atomic wStoreFail
    { main := [("old", "v")], aux := () } ["a"]).2 "keyError" rfl
  exact ⟨hok.1, hok.2 "a", herr⟩

/-- Claim C9: Store.Update is extensionally equal to Store.Add — the Go
body of Update is `return s.Add(obj)` — and Add derives the key with the
store's key function and upserts the object, so both return identical
results and leave identical store state. -/
theorem storeUpdate_eq_storeAdd {Obj A : Type} (sm : StoreModel Obj A)
    (st : TxState Obj A) (obj : Obj) :
    storeUpdate sm st obj = storeAdd sm st obj ∧
    (∀ key, sm.keyFunc obj = .ok key →
      storeAdd sm st obj = storeUpsert sm st key obj) := by
  refine ⟨rfl, fun key hk => ?_⟩
  unfold storeAdd
  rw [hk]
  exact exceptBind_ok key _

/-- Claim C9 witness: on a concrete store keyed by identity, Update and
Add of "x" agree, and Add "x" is the upsert at key "x". -/
theorem storeUpdate_eq_storeAdd_witness :
    storeUpdate wStore { main := [], aux := () } "x" =
      storeAdd wStore { main := [], aux := () } "x" ∧
    storeAdd wStore { main := [], aux := () } "x" =
      storeUpsert wStore { main := [], aux := () } "x" "x" := by
  have h := storeUpdate_eq_storeAdd wStore { main := [], aux := () } "x"
  exact ⟨h.1, h.2 "x" rfl⟩

/-- Claim C8: when CATTLE_PROMETHEUS_METRICS is not "true", the
process-wide flag set at init is false, and every metric-emission
function is a no-op that mutates no metric state, for all argument
values. -/
theorem metrics_disabled_noop {V : Type} (env : String) (henv : env ≠ "true")
    (controllerName handlerName ctxID group version kind : String)
    (hasError : Bool) (val obs : V) (s : MetricsState V) :
    prometheusMetricsFromEnv env = false ∧
    IncTotalHandlerExecutions (prometheusMetricsFromEnv env) controllerName
      handlerName hasError s = s ∧
    IncTotalCachedObjects (prometheusMetricsFromEnv env) ctxID group version
      kind val s = s ∧
    DelTotalCachedObjects (prometheusMetricsFromEnv env) ctxID group version
      kind s = s ∧
    ReportReconcileTime (prometheusMetricsFromEnv env) controllerName
      handlerName hasError obs s = s := by
  have hflag : prometheusMetricsFromEnv env = false := by
    unfold prometheusMetricsFromEnv
    exact beq_eq_false_iff_ne.mpr henv
  rw [hflag]
  exact ⟨rfl, rfl, rfl, rfl, rfl⟩

/-- Claim C8 witness: with the environment variable unset (empty string),
each emission function leaves a concrete metric state untouched. -/
theorem metrics_disabled_noop_witness :
    IncTotalHandlerExecutions (prometheusMetricsFromEnv "") "c" "h" true
      ({ execCount := [], cachedObjects := [], reconcileObs := [] } :
        MetricsState Nat) =
      { execCount := [], cachedObjects := [], reconcileObs := [] } ∧
    ReportReconcileTime (prometheusMetricsFromEnv "") "c" "h" false 7
      ({ execCount := [], cachedObjects := [], reconcileObs := [] } :
        MetricsState Nat) =
      { execCount := [], cachedObjects := [], reconcileObs := [] } := by
  have h := metrics_disabled_noop "" (by decide) "c" "h" "x" "g" "v" "k"
    true 7 7 ({ execCount := [], cachedObjects := [], reconcileObs := [] } :
      MetricsState Nat)
  refine ⟨?_, ?_⟩
  · exact h.2.1
  · have h2 := metrics_disabled_noop "" (by decide) "c" "h" "x" "g" "v" "k"
      false 7 7 ({ execCount := [], cachedObjects := [], reconcileObs := [] } :
        MetricsState Nat)
    exact h2.2.2.2.2

/-! Work-queue lemmas. -/

theorem get?_set_ne {α : Type} (l : List α) (m n : Nat) (a : α)
    (h : m ≠ n) : (l.set m a).get? n = l.get? n := by
  induction l generalizing m n with
  | nil => rfl
  | cons hd tl ih =>
    cases m with
    | zero =>
      cases n with
      | zero => exact absurd rfl h
      | succ n' => rfl
    | succ m' =>
      cases n with
      | zero => rfl
      | succ n' => exact ih m' n' fun he => h (by rw [he])

theorem get?_set_self_of_some {α : Type} (l : List α) (n : Nat) (a b : α)
    (h : l.get? n = some b) : (l.set n a).get? n = some a := by
  induction l generalizing n with
  | nil => cases h
  | cons hd tl ih =>
    cases n with
    | zero => rfl
    | succ n' => exact ih n' h

theorem nodup_append_singleton {α : Type} (l : List α) (a : α)
    (hl : l.Nodup) (ha : a ∉ l) : (l ++ [a]).Nodup := by
  induction l with
  | nil => simp
  | cons hd tl ih =>
    rw [List.cons_append, List.nodup_cons]
    rw [List.nodup_cons] at hl
    refine ⟨?_, ih hl.2 fun hm => ha (List.mem_cons_of_mem _ hm)⟩
    intro hm
    rcases List.mem_append.mp hm with hm | hm
    · exact hl.1 hm
    · rcases List.mem_singleton.mp hm with rfl
      exact ha (List.mem_cons_self _ _)

theorem mem_filterNe {k x : String} {l : List String} :
    x ∈ l.filter (fun y => !(y == k)) ↔ x ∈ l ∧ x ≠ k := by
  simp [List.mem_filter]

/-- The invariant holds initially: all workers are idle. -/
theorem queueInv_init (n : Nat) : QueueInv (initQueue n) := by
  refine ⟨?_, ?_, ?_, ?_⟩
  · intro w k hw
    have hmem := List.get?_mem hw
    have := List.eq_of_mem_replicate hmem
    cases this
  · intro k hk
    cases hk
  · exact List.nodup_nil
  · intro w1 w2 k h1 h2
    have hmem := List.get?_mem h1
    have := List.eq_of_mem_replicate hmem
    cases this

/-- The invariant is preserved by every queue step. -/
theorem queueInv_step (s t : QueueState) (hstep : QueueStep s t)
    (hinv : QueueInv s) : QueueInv t := by
  obtain ⟨inv1, inv2, inv3, inv4⟩ := hinv
  cases hstep with
  | add k =>
    unfold addKey
    by_cases hsd : s.shutdown
    · simpa [hsd] using ⟨inv1, inv2, inv3, inv4⟩
    · rw [if_neg hsd]
      by_cases hp : k ∈ s.processing
      · rw [if_pos hp]
        exact ⟨inv1, inv2, inv3, inv4⟩
      · rw [if_neg hp]
        by_cases hq : k ∈ s.queue
        · rw [if_pos hq]
          exact ⟨inv1, inv2, inv3, inv4⟩
        · rw [if_neg hq]
          refine ⟨inv1, ?_, ?_, inv4⟩
          · intro k' hk'
            rcases List.mem_append.mp hk' with hm | hm
            · exact inv2 k' hm
            · rcases List.mem_singleton.mp hm with rfl
              exact hp
          · exact nodup_append_singleton _ _ inv3 hq
  | get w k rest hw hq =>
    have hkq : k ∈ s.queue := by rw [hq]; exact List.mem_cons_self _ _
    have hkp : k ∉ s.processing := inv2 k hkq
    have hnohold : ∀ w', s.workers.get? w' ≠ some (some k) := by
      intro w' hw'
      exact hkp (inv1 w' k hw')
    refine ⟨?_, ?_, ?_, ?_⟩
    · intro w' k' hw'
      unfold getKey at hw'
      by_cases hww : w = w'
      · subst hww
        rw [get?_set_self_of_some _ _ _ _ hw] at hw'
        simp only [Option.some.injEq] at hw'
        rw [← hw']
        exact List.mem_cons_self _ _
      · rw [get?_set_ne _ _ _ _ hww] at hw'
        exact List.mem_cons_of_mem _ (inv1 w' k' hw')
    · intro k' hk'
      unfold getKey at hk'
      have hkq' : k' ∈ s.queue := by
        rw [hq]
        exact List.mem_cons_of_mem _ hk'
      intro hmem
      rcases List.mem_cons.mp hmem with rfl | hm
      · rw [hq] at inv3
        rw [List.nodup_cons] at inv3
        exact inv3.1 hk'
      · exact inv2 k' hkq' hm
    · rw [hq] at inv3
      rw [List.nodup_cons] at inv3
      exact inv3.2
    · intro w1 w2 k' h1 h2
      unfold getKey at h1 h2
      by_cases h1w : w = w1 <;> by_cases h2w : w = w2
      · rw [← h1w, ← h2w]
      · subst h1w
        rw [get?_set_self_of_some _ _ _ _ hw] at h1
        simp only [Option.some.injEq] at h1
        rw [get?_set_ne _ _ _ _ h2w] at h2
        rw [← h1] at h2
        exact absurd h2 (hnohold w2)
      · subst h2w
        rw [get?_set_self_of_some _ _ _ _ hw] at h2
        simp only [Option.some.injEq] at h2
        rw [get?_set_ne _ _ _ _ h1w] at h1
        rw [← h2] at h1
        exact absurd h1 (hnohold w1)
      · rw [get?_set_ne _ _ _ _ h1w] at h1
        rw [get?_set_ne _ _ _ _ h2w] at h2
        exact inv4 w1 w2 k' h1 h2
  | done w k hw =>
    have hkp : k ∈ s.processing := inv1 w k hw
    have hkq : k ∉ s.queue := fun hm => inv2 k hm hkp
    have honehold : ∀ w', s.workers.get? w' = some (some k) → w' = w :=
      fun w' hw' => inv4 w' w k hw' hw
    unfold doneKey
    by_cases hd : k ∈ s.dirty
    · rw [if_pos hd]
      refine ⟨?_, ?_, ?_, ?_⟩
      · intro w' k' hw'
        by_cases hww : w = w'
        · subst hww
          rw [get?_set_self_of_some _ _ _ _ hw] at hw'
          cases hw'
        · rw [get?_set_ne _ _ _ _ hww] at hw'
          have hk'p := inv1 w' k' hw'
          have hk'ne : k' ≠ k := by
            intro he
            subst he
            exact hww (honehold w' hw').symm
          exact mem_filterNe.mpr ⟨hk'p, hk'ne⟩
      · intro k' hk'
        rcases List.mem_append.mp hk' with hm | hm
        · intro hmem
          exact inv2 k' hm (mem_filterNe.mp hmem).1
        · rcases List.mem_singleton.mp hm with rfl
          intro hmem
          exact (mem_filterNe.mp hmem).2 rfl
      · exact nodup_append_singleton _ _ inv3 hkq
      · intro w1 w2 k' h1 h2
        by_cases h1w : w = w1
        · subst h1w
          rw [get?_set_self_of_some _ _ _ _ hw] at h1
          cases h1
        · by_cases h2w : w = w2
          · subst h2w
            rw [get?_set_self_of_some _ _ _ _ hw] at h2
            cases h2
          · rw [get?_set_ne _ _ _ _ h1w] at h1
            rw [get?_set_ne _ _ _ _ h2w] at h2
            exact inv4 w1 w2 k' h1 h2
    · rw [if_neg hd]
      refine ⟨?_, ?_, ?_, ?_⟩
      · intro w' k' hw'
        by_cases hww : w = w'
        · subst hww
          rw [get?_set_self_of_some _ _ _ _ hw] at hw'
          cases hw'
        · rw [get?_set_ne _ _ _ _ hww] at hw'
          have hk'p := inv1 w' k' hw'
          have hk'ne : k' ≠ k := by
            intro he
            subst he
            exact hww (honehold w' hw').symm
          exact mem_filterNe.mpr ⟨hk'p, hk'ne⟩
      · intro k' hk'
        intro hmem
        exact inv2 k' hk' (mem_filterNe.mp hmem).1
      · exact inv3
      · intro w1 w2 k' h1 h2
        by_cases h1w : w = w1
        · subst h1w
          rw [get?_set_self_of_some _ _ _ _ hw] at h1
          cases h1
        · by_cases h2w : w = w2
          · subst h2w
            rw [get?_set_self_of_some _ _ _ _ hw] at h2
            cases h2
          · rw [get?_set_ne _ _ _ _ h1w] at h1
            rw [get?_set_ne _ _ _ _ h2w] at h2
            exact inv4 w1 w2 k' h1 h2
  | shutDown =>
    exact ⟨inv1, inv2, inv3, inv4⟩

/-- The invariant holds in every reachable state. -/
theorem queueInv_reachable (n : Nat) (s : QueueState)
    (h : Relation.ReflTransGen QueueStep (initQueue n) s) : QueueInv s := by
  induction h with
  | refl => exact queueInv_init n
  | tail hsteps hstep ih => exact queueInv_step _ _ hstep ih

/-- Claim C1 (spec-modelled): in every state reachable from a freshly
started controller, at most one worker is executing the handler chain for
any key — two workers holding the same key are the same worker. Dispatch
of watch events and enqueued keys is therefore strictly serial per key
across all handlers of one shared controller. -/
theorem perKey_serial (n : Nat) (s : QueueState) (k : String)
    (w1 w2 : Nat)
    (hreach : Relation.ReflTransGen QueueStep (initQueue n) s)
    (h1 : s.workers.get? w1 = some (some k))
    (h2 : s.workers.get? w2 = some (some k)) : w1 = w2 :=
  (queueInv_reachable n s hreach).2.2.2 w1 w2 k h1 h2

/-- Claim C1 witness: after adding key "a" and one Get, worker 0 holds
"a" in a reachable state, and the theorem applies. -/
theorem perKey_serial_witness :
    wQueueState.workers.get? 0 = some (some "a") ∧ (0 : Nat) = 0 := by
  have htrace : Relation.ReflTransGen QueueStep (initQueue 1) wQueueState :=
    Relation.ReflTransGen.tail
      (Relation.ReflTransGen.tail Relation.ReflTransGen.refl
        (QueueStep.add (initQueue 1) "a"))
      (QueueStep.get (addKey (initQueue 1) "a") 0 "a" [] rfl rfl)
  exact ⟨rfl, perKey_serial 1 wQueueState "a" 0 0 htrace rfl rfl⟩

end Lasso
